import Mathlib

/-!
Verification of the outpack repository engine against its python sources.

The python code is shallowly embedded in Lean:
  - repository state (the config, the metadata files under .outpack/metadata,
    and the membership rows under .outpack/location) is explicit data,
  - functions that mutate the repository return the new state together with an
    optional error, so that partially applied updates made before an exception
    are visible, exactly as they are on disk,
  - file writes relevant to atomicity claims are modelled as traces of
    primitive filesystem operations,
  - the hash function is an explicit parameter (the sources delegate to
    hashlib via outpack.hash, which is not among the source files).

Python dictionaries are modelled as insertion-ordered association lists with
(in use) distinct keys.
-/

namespace Outpack

/-! ## Association list helpers (python dict, insertion ordered) -/

/-- Keys of an association list, in insertion order (python dict.keys()). -/
def alistKeys {α : Type} (m : List (String × α)) : List String :=
  m.map Prod.fst

/-- Replace the value stored at a key (python d[k] = v for an existing key).
With the keys distinct, this is exactly the python update. -/
def alistSet {α : Type} (m : List (String × α)) (k : String) (v : α) : List (String × α) :=
  m.map fun e => if e.1 = k then (k, v) else e

/-! ## Data model: PacketLocation, PacketFile, MetadataCore

From outpack/metadata.py (the dataclasses; only the fields the verified
operations read are carried, the remaining payload fields are opaque to every
claim considered here). The float time stamp is carried as an opaque Nat: no
operation computes with it. -/

structure PacketLocation where
  packet : String
  time : Nat
  hash : String
deriving Repr, DecidableEq

structure PacketFile where
  path : String
  hash : String
  size : Nat
deriving Repr, DecidableEq

structure PacketDepends where
  packet : String
  query : String
  files : List (String × String)
deriving Repr, DecidableEq

structure MetadataCore where
  id : String
  name : String
  files : List PacketFile
  depends : List PacketDepends
deriving Repr, DecidableEq

/-! ## Config (src/src/outpack/config.py) -/

structure Location where
  name : String
  type : String
  args : Option (List (String × String))
deriving Repr, DecidableEq

/-- The runtime value stored in the Config.location attribute. The dataclass
annotates it as a name-keyed mapping, but python performs no runtime check, so
the attribute can also hold a bare list (which is what Config.new builds). -/
inductive LocationField where
  | asList : List Location → LocationField
  | asMap : List (String × Location) → LocationField
deriving Repr, DecidableEq

structure ConfigCore where
  hash_algorithm : String
  path_archive : Option String
  use_file_store : Bool
  require_complete_tree : Bool
deriving Repr, DecidableEq

structure Config where
  schema_version : String
  core : ConfigCore
  location : LocationField
deriving Repr, DecidableEq

/-- Modelled from the spec: outpack/schema.py is not among the source files;
outpack_schema_version() returns the (opaque) schema version string carried in
the config. -/
def outpack_schema_version : String := "0.0.1"

/-- The encoder registered for the Config.location field
(_encode_location_dict in config.py): it calls d.values(), which succeeds on
the mapping form and raises AttributeError on a bare list (a python list has
no values method); the failure is modelled as none. -/
def _encode_location_dict : LocationField → Option (List Location)
  | .asMap m => some (m.map Prod.snd)
  | .asList _ => none

/-- The decoder for the Config.location field (_decode_location_dict in
config.py): builds the name-keyed mapping from the serialized list. -/
def _decode_location_dict (l : List Location) : LocationField :=
  .asMap (l.map fun x => (x.name, x))

/-- Config.new from config.py: rejects path_archive None without the file
store, then builds the config with hash algorithm sha256 and the location
field set to the bare one-element list holding the built-in local location
(the python source passes the list, not a mapping). -/
def Config.new (path_archive : Option String) (use_file_store require_complete_tree : Bool) :
    Except String Config :=
  if path_archive.isNone && !use_file_store then
    .error "If \x27path_archive\x27 is None, \x27use_file_store\x27 must be True"
  else
    let core : ConfigCore := ⟨"sha256", path_archive, use_file_store, require_complete_tree⟩
    let localLoc : Location := ⟨"local", "local", none⟩
    .ok ⟨outpack_schema_version, core, .asList [localLoc]⟩

/-! ## JSON rendering helpers (compact separators, as dataclasses_json emits) -/

def jsonString (s : String) : String := "\"" ++ s ++ "\""

def jsonObj (fields : List (String × String)) : String :=
  "\x7b" ++ String.intercalate "," (fields.map fun kv => jsonString kv.1 ++ ":" ++ kv.2) ++ "\x7d"

def Location.to_json (l : Location) : String :=
  jsonObj [("name", jsonString l.name), ("type", jsonString l.type),
    ("args", match l.args with
      | none => "null"
      | some kvs => jsonObj (kvs.map fun kv => (kv.1, jsonString kv.2)))]

def ConfigCore.to_json (c : ConfigCore) : String :=
  jsonObj [("hash_algorithm", jsonString c.hash_algorithm),
    ("path_archive", match c.path_archive with | none => "null" | some p => jsonString p),
    ("use_file_store", if c.use_file_store then "true" else "false"),
    ("require_complete_tree", if c.require_complete_tree then "true" else "false")]

/-- Config.to_json: serializes through the registered field encoders; fails
(none, the AttributeError of _encode_location_dict) when the location field
holds a bare list. -/
def Config.to_json (c : Config) : Option String :=
  (_encode_location_dict c.location).map fun locs =>
    jsonObj [("schema_version", jsonString c.schema_version),
      ("core", c.core.to_json),
      ("location", "[" ++ String.intercalate "," (locs.map Location.to_json) ++ "]")]

def PacketLocation.to_json (p : PacketLocation) : String :=
  jsonObj [("packet", jsonString p.packet), ("time", toString p.time),
    ("hash", jsonString p.hash)]

/-! ## Filesystem operation traces (for the atomicity claim)

write_config (config.py lines 16-18) and mark_known (pyorderly root.py lines
89-96) are modelled as the exact sequence of filesystem operations they
perform. -/

inductive FsOp where
  | write (path content : String)
  | rename (src dst : String)
  | mkdirp (path : String)
deriving Repr, DecidableEq

def _config_path (root_path : String) : String :=
  root_path ++ "/.outpack/config.json"

/-- write_config from config.py: opens the destination itself for writing and
writes the serialized config into it. No temporary file, no rename. The
serialization failure of a list-form location field is propagated as none. -/
def write_config (config : Config) (root_path : String) : Option (List FsOp) :=
  (config.to_json).map fun s => [FsOp.write (_config_path root_path) s]

/-- mark_known from pyorderly root.py: creates the location directory, then
opens the membership file itself for writing and writes the PacketLocation
row into it. No temporary file, no rename. -/
def mark_known_ops (root_path packet_id location hash : String) (time : Nat) : List FsOp :=
  let parent := root_path ++ "/.outpack/location/" ++ location
  let dest := parent ++ "/" ++ packet_id
  [FsOp.mkdirp parent,
   FsOp.write dest (PacketLocation.to_json ⟨packet_id, time, hash⟩)]

/-- Does the trace write directly to the given final path? -/
def writes_directly_to (ops : List FsOp) (final : String) : Bool :=
  ops.any fun op => match op with
    | .write p _ => p = final
    | _ => false

/-- The property claimed by the spec for an atomic rewrite of a file: the
content is written to a temporary file which is then renamed into place, and
the final path is never the target of a direct write (so no partially written
state of it is ever observable). -/
def uses_tmp_rename (ops : List FsOp) (final : String) : Prop :=
  (∃ tmp content, tmp ≠ final ∧ FsOp.write tmp content ∈ ops ∧ FsOp.rename tmp final ∈ ops)
  ∧ writes_directly_to ops final = false

/-! ## Repository state for the location and pull operations

The decoded config location mapping (read_config always produces the mapping
form), the metadata store (.outpack/metadata/(id)) and the membership rows
(.outpack/location/(name)/(id)). -/

structure RootState where
  locations : List (String × Location)
  metadataStore : List (String × String)
  locationStore : List (String × List (String × PacketLocation))
deriving Repr, DecidableEq

/-- Modelled from the spec: outpack/static.py is not among the source files;
the reserved location names are local and orphan. -/
def LOCATION_RESERVED_NAME : List String := ["local", "orphan"]

def LOCATION_LOCAL : String := "local"

def LOCATION_ORPHAN : String := "orphan"

/-- outpack_location_list from location.py: the keys of the configured
location mapping, in insertion order. -/
def outpack_location_list (st : RootState) : List String :=
  alistKeys st.locations

/-- outpack_location_add from location.py. The reserved-name check comes
first; root_open of the target path of a path location is abstracted by the
target_is_root flag (it raises when the target is not an outpack root). The
state is returned unchanged on every error path, as the python raises before
update_config. -/
def outpack_location_add (st : RootState) (name type_ : String)
    (args : Option (List (String × String))) (target_is_root : Bool) :
    RootState × Option String :=
  if LOCATION_RESERVED_NAME.contains name then
    (st, some ("Cannot add a location with reserved name \x27" ++ name ++ "\x27"))
  else if (outpack_location_list st).contains name then
    (st, some ("A location with name \x27" ++ name ++ "\x27 already exists"))
  else if type_ = "path" && !target_is_root then
    (st, some "Did not find existing outpack root")
  else if type_ = "http" || type_ = "custom" then
    (st, some ("Cannot add a location with type \x27" ++ type_ ++ "\x27 yet."))
  else
    ({st with locations := st.locations ++ [(name, ⟨name, type_, args⟩)]}, none)

/-- outpack_location_remove from location.py: reserved-name check, existence
check, then removal of the membership directory and of the config entry. -/
def outpack_location_remove (st : RootState) (name : String) :
    RootState × Option String :=
  if LOCATION_RESERVED_NAME.contains name then
    (st, some ("Cannot remove default location \x27" ++ name ++ "\x27"))
  else if !((outpack_location_list st).contains name) then
    (st, some ("No location with name \x27" ++ name ++ "\x27 exists"))
  else
    ({st with
        locationStore := st.locationStore.filter (fun e => e.1 ≠ name),
        locations := st.locations.filter (fun e => e.1 ≠ name)}, none)

/-- outpack_location_rename from location.py: reserved-name check on the old
name, new-name availability check, existence check, then pop plus reinsert
(the renamed location moves to the end of the insertion order, as a python
dict pop followed by assignment does). -/
def outpack_location_rename (st : RootState) (old new_ : String) :
    RootState × Option String :=
  if LOCATION_RESERVED_NAME.contains old then
    (st, some ("Cannot rename default location \x27" ++ old ++ "\x27"))
  else if (outpack_location_list st).contains new_ then
    (st, some ("A location with name \x27" ++ new_ ++ "\x27 already exists"))
  else
    match st.locations.lookup old with
    | none => (st, some ("No location with name \x27" ++ old ++ "\x27 exists"))
    | some loc =>
      ({st with locations :=
          (st.locations.filter (fun e => e.1 ≠ old)) ++ [(new_, { loc with name := new_ })]}, none)

/-! ## location_resolve_valid (location.py lines 85-119) -/

/-- The accepted shapes of the location argument: python None, a single
string, or a list of strings. -/
inductive LocationsArg where
  | noneArg : LocationsArg
  | one : String → LocationsArg
  | many : List String → LocationsArg
deriving Repr, DecidableEq

/-- The input-normalization step of location_resolve_valid (location.py lines
88-108): python None resolves to every configured name, a known single string
to the singleton list, a list of known strings to itself; unknown names
fail. -/
def _location_arg_resolve (arg : LocationsArg) (names : List String) :
    Except String (List String) :=
  match arg with
  | .noneArg => .ok names
  | .one s =>
    if names.contains s then .ok [s]
    else .error ("Unknown location: \x27" ++ s ++ "\x27")
  | .many l =>
    let unknown := (l.filter fun x => !(names.contains x)).dedup
    if unknown.isEmpty then .ok l
    else .error ("Unknown location: \x27" ++ String.intercalate "\x27, \x27" unknown ++ "\x27")

/-- The filtering step of location_resolve_valid (location.py lines 110-119):
drop local and orphan with list.remove, which deletes only the first
occurrence, then reject an empty result unless allowed. -/
def _location_filter (l0 : List String)
    (include_local include_orphan allow_no_locations : Bool) :
    Except String (List String) :=
  let l1 := if !include_local && l0.contains LOCATION_LOCAL then l0.erase LOCATION_LOCAL else l0
  let l2 := if !include_orphan && l1.contains LOCATION_ORPHAN then l1.erase LOCATION_ORPHAN else l1
  if l2.isEmpty && !allow_no_locations then .error "No suitable location found"
  else .ok l2

/-- location_resolve_valid from location.py (lines 85-119). -/
def location_resolve_valid (arg : LocationsArg) (st : RootState)
    (include_local include_orphan allow_no_locations : Bool) :
    Except String (List String) :=
  match _location_arg_resolve arg (outpack_location_list st) with
  | .error e => .error e
  | .ok l0 => _location_filter l0 include_local include_orphan allow_no_locations

/-! ## find_file_descend and root_open with locate (util.py, pyorderly root.py)

A filesystem path is modelled as its list of segments below the anchor; the
anchor itself is the empty list. The directories that contain the searched
file are given as an explicit list. -/

def find_file_descend (dirs : List (List String)) : List String → Option (List String)
  | [] => none
  | p@(_ :: _) =>
    if dirs.contains p then some p
    else find_file_descend dirs p.dropLast
termination_by p => p.length
decreasing_by
  simp_all [List.length_dropLast]

def render_path (p : List String) : String :=
  "/" ++ String.intercalate "/" p

/-- The locate branch of root_open (pyorderly root.py lines 76-86): descend
for a directory containing .outpack and fail when none is found. The dirs
argument lists the directories that contain a .outpack entry. -/
def root_open_locate (dirs : List (List String)) (path : List String) :
    Except String (List String) :=
  match find_file_descend dirs path with
  | some p => .ok p
  | none => .error ("Did not find existing outpack root in \x27" ++ render_path path ++ "\x27")

/-! ## Pull metadata engine (location.py lines 122-224)

The location driver is modelled by the data it serves: the ordered map that
list() returns and the metadata payloads that metadata() returns. The hash
function h stands for outpack.hash.hash_string with the configured algorithm
(outpack/hash.py is not among the source files; per the spec it hashes the
canonical bytes and validation compares the recomputed hash with the expected
one). -/

structure PullDriver where
  list : List (String × PacketLocation)
  metadataOf : String → Option String

inductive PullErr where
  | resolveError (msg : String)
  | driverMissingMetadata (packet_id : String)
  | metadataHashMismatch (packet_id location_name : String)
  | conflictingMetadata (location_name : String) (ids : List String)
deriving Repr, DecidableEq

/-- Modelled from the spec: outpack.hash.hash_validate_string is not among
the source files; it fails with a hash mismatch whose message cites what was
being hashed (here: metadata for the packet id, from the location), with the
wording the spec gives for pull metadata. -/
def PullErr.message : PullErr → String
  | .resolveError m => m
  | .driverMissingMetadata id =>
    "Some packet ids not found: \x27" ++ id ++ "\x27"
  | .metadataHashMismatch id loc =>
    "hash of metadata for \x27" ++ id ++ "\x27 from \x27" ++ loc ++ "\x27 does not match"
  | .conflictingMetadata loc ids =>
    "Location \x27" ++ loc ++ "\x27 has conflicting metadata\n" ++
    "Conflicts for: \x27" ++ String.intercalate "\x27, \x27" ids ++ "\x27"

/-- Result of the fetch loop of _pull_all_metadata: the repository state with
every write performed before a failure (the python exception propagates past
the writes already made), the ids that were actually fetched from the driver,
and the error if one occurred. -/
structure PullStepResult where
  state : RootState
  fetched : List String
  err : Option PullErr
deriving Repr, DecidableEq

/-- The loop of _pull_all_metadata together with _pull_packet_metadata
(location.py lines 143-180): walk the ids known at the location in order; an
id already in the local metadata index is skipped; otherwise the metadata
string is fetched, validated against the hash the location reported, and
persisted under .outpack/metadata. known_here is the snapshot taken before
the loop. -/
def _pull_all_metadata_go (h : String → String) (d : PullDriver) (loc : String)
    (known_here : List String) :
    RootState → List String → List (String × PacketLocation) → PullStepResult
  | st, fetched, [] => ⟨st, fetched, none⟩
  | st, fetched, (pid, pl) :: rest =>
    if known_here.contains pid then
      _pull_all_metadata_go h d loc known_here st fetched rest
    else
      match d.metadataOf pid with
      | none => ⟨st, fetched ++ [pid], some (.driverMissingMetadata pid)⟩
      | some m =>
        if h m = pl.hash then
          _pull_all_metadata_go h d loc known_here
            { st with metadataStore := st.metadataStore ++ [(pid, m)] }
            (fetched ++ [pid]) rest
        else
          ⟨st, fetched ++ [pid], some (.metadataHashMismatch pid loc)⟩

/-- _pull_all_metadata (location.py lines 143-148). -/
def _pull_all_metadata (h : String → String) (d : PullDriver) (st : RootState)
    (loc : String) : PullStepResult :=
  _pull_all_metadata_go h d loc (alistKeys st.metadataStore) st [] d.list

/-- _validate_hashes (location.py lines 183-206): the cross-check of every
locally known membership row against what this location reports; returns the
set of conflicting packet ids (the python code collects them in a set; here
the deduplicated list in encounter order) or none when there is no conflict. -/
def _validate_hashes (d : PullDriver) (packets : List PacketLocation) :
    Option (List String) :=
  let mismatched :=
    ((packets.filter fun p =>
        match d.list.lookup p.packet with
        | some pl => pl.hash != p.hash
        | none => false).map (fun p => p.packet)).dedup
  if mismatched.isEmpty then none else some mismatched

/-- Append a membership row for a packet under a location (the state-level
view of mark_known: the file .outpack/location/(loc)/(id) comes into
existence). -/
def RootState.markKnownRow (st : RootState) (loc pid : String)
    (pl : PacketLocation) : RootState :=
  match st.locationStore.lookup loc with
  | some rows => { st with locationStore := alistSet st.locationStore loc (rows ++ [(pid, pl)]) }
  | none => { st with locationStore := st.locationStore ++ [(loc, [(pid, pl)])] }

/-- _mark_all_known (location.py lines 209-224): insert a membership row for
every packet the location reports that does not already have one; known_here
is the snapshot taken before the loop. -/
def _mark_all_known (d : PullDriver) (st : RootState) (loc : String) : RootState :=
  let known_here :=
    match st.locationStore.lookup loc with
    | some rows => alistKeys rows
    | none => []
  d.list.foldl
    (fun acc pr =>
      if known_here.contains pr.1 then acc
      else acc.markKnownRow loc pr.1 ⟨pr.1, pr.2.time, pr.2.hash⟩)
    st

/-- All membership rows of every configured location, as
root.index.all_locations() flattens them for the cross-check (location.py
lines 134-136). -/
def RootState.allLocationRows (st : RootState) : List PacketLocation :=
  (st.locationStore.map Prod.snd).flatMap (fun rows => rows.map Prod.snd)

/-- The body of the per-location loop of outpack_location_pull_metadata
(location.py lines 131-138): fetch-and-persist new metadata, cross-check the
hashes of already known packets, then mark the membership rows. The state
returned on error carries exactly the writes made before the exception. -/
def _pull_metadata_location (h : String → String) (d : PullDriver)
    (st : RootState) (name : String) : RootState × Option PullErr :=
  let r := _pull_all_metadata h d st name
  match r.err with
  | some e => (r.state, some e)
  | none =>
    match _validate_hashes d r.state.allLocationRows with
    | some ids => (r.state, some (.conflictingMetadata name ids))
    | none => (_mark_all_known d r.state name, none)

/-- The per-location fold of outpack_location_pull_metadata: the loop stops
at the first failing location, keeping the state already produced. -/
def _pull_metadata_locations (h : String → String) (drivers : String → PullDriver) :
    List String → RootState → RootState × Option PullErr
  | [], st => (st, none)
  | nm :: rest, st =>
    match _pull_metadata_location h (drivers nm) st nm with
    | (st1, some e) => (st1, some e)
    | (st1, none) => _pull_metadata_locations h drivers rest st1

/-- outpack_location_pull_metadata (location.py lines 122-140): resolve the
requested locations excluding local and orphan (an empty set is allowed),
then pull from each in turn. -/
def outpack_location_pull_metadata (h : String → String)
    (drivers : String → PullDriver) (arg : LocationsArg) (st : RootState) :
    RootState × Option PullErr :=
  match location_resolve_valid arg st false false true with
  | .error e => (st, some (.resolveError e))
  | .ok names => _pull_metadata_locations h drivers names st

/-! ## Archive (pyorderly/outpack/archive.py)

The archive directory tree is modelled as a mapping from path strings to file
contents; re-hashing a file on disk applies h to its content, and a missing
file makes hash_file fail (the FileNotFoundError of open). -/

structure ArchiveState where
  path : String
  metadata : List (String × MetadataCore)
  unpacked : List String
  disk : List (String × String)
deriving Repr, DecidableEq

/-- hash_file restricted to what the archive scan needs: re-hash the content
stored at a path, failing when the path does not exist. -/
def hash_file (h : String → String) (disk : List (String × String))
    (p : String) : Option String :=
  (disk.lookup p).map h

/-- The path of a declared file inside the archive tree:
(archive)/(name)/(id)/(path). -/
def archive_path (archiveRoot : String) (meta : MetadataCore) (f : PacketFile) : String :=
  archiveRoot ++ "/" ++ meta.name ++ "/" ++ meta.id ++ "/" ++ f.path

/-- Outcome of scanning one packet for a hash. -/
inductive ScanOutcome where
  | found (path : String)
  | notFoundHere
  | diskMissing (path : String)
deriving Repr, DecidableEq

/-- The file loop of Archive._find_file_in_packet (archive.py lines 18-32):
walk the declared files; on a recorded-hash match re-hash the file on disk;
return the path when the re-hash equals the requested hash, emit a rejection
diagnostic and continue when it differs, and abort (FileNotFoundError from
open) when the file is missing on disk. -/
def _find_file_in_packet_go (h : String → String) (disk : List (String × String))
    (archiveRoot : String) (meta : MetadataCore) (hash : String) :
    List PacketFile → List String → ScanOutcome × List String
  | [], diags => (.notFoundHere, diags)
  | f :: rest, diags =>
    if f.hash = hash then
      let p := archive_path archiveRoot meta f
      match hash_file h disk p with
      | none => (.diskMissing p, diags)
      | some hv =>
        if hv = hash then (.found p, diags)
        else
          _find_file_in_packet_go h disk archiveRoot meta hash rest
            (diags ++ ["Rejecting file from archive \x27" ++ f.path ++
              "\x27 in \x27" ++ meta.name ++ "/" ++ meta.id ++ "\x27"])
    else
      _find_file_in_packet_go h disk archiveRoot meta hash rest diags

inductive ArchiveResult where
  | ok (path : String)
  | errFileNotFound (msg : String)
  | errKeyError (id : String)
deriving Repr, DecidableEq

/-- The scan order of Archive.find_file (archive.py lines 36-37): the
candidates first, then the other unpacked ids (the python set difference,
kept here in unpacked order). -/
def archive_scan_order (st : ArchiveState) (candidates : List String) : List String :=
  candidates ++ (st.unpacked.filter fun i => !(candidates.contains i)).dedup

def _archive_find_file_go (h : String → String) (st : ArchiveState) (hash : String) :
    List String → List String → ArchiveResult × List String
  | [], diags =>
    (.errFileNotFound "File not found in archive, or corrupt", diags)
  | pid :: rest, diags =>
    match st.metadata.lookup pid with
    | none => (.errKeyError pid, diags)
    | some meta =>
      match _find_file_in_packet_go h st.disk st.path meta hash meta.files diags with
      | (.found p, diags1) => (.ok p, diags1)
      | (.diskMissing p, diags1) =>
        (.errFileNotFound ("No such file or directory: \x27" ++ p ++ "\x27"), diags1)
      | (.notFoundHere, diags1) => _archive_find_file_go h st hash rest diags1

/-- Archive.find_file (archive.py lines 34-43), returning the result together
with the rejection diagnostics printed along the way. -/
def Archive_find_file (h : String → String) (st : ArchiveState) (hash : String)
    (candidates : List String) : ArchiveResult × List String :=
  _archive_find_file_go h st hash (archive_scan_order st candidates) []

/-- Does some declared file of the packet match the recorded hash and
re-verify on disk? This is the condition under which the archive scan can
return a path from this packet. -/
def packet_has_verified_file (h : String → String) (st : ArchiveState)
    (hash pid : String) : Bool :=
  match st.metadata.lookup pid with
  | none => false
  | some meta =>
    meta.files.any fun f =>
      f.hash = hash &&
        (match hash_file h st.disk (archive_path st.path meta f) with
         | some hv => hv = hash
         | none => false)

/-- Every declared file of the packet whose recorded hash matches the
searched hash is present on disk (the situation in which the archive scan of
this packet cannot abort on a missing file). -/
def packet_files_on_disk (st : ArchiveState) (hash pid : String) : Bool :=
  match st.metadata.lookup pid with
  | none => true
  | some meta =>
    meta.files.all fun f =>
      f.hash != hash || (st.disk.lookup (archive_path st.path meta f)).isSome

/-! ## FileStore and OutpackRoot.find_file_by_hash (pyorderly/outpack)

pyorderly/outpack/filestore.py is not among the source files. Modelled from
the spec: the store keeps blobs in the content-addressed layout
(store_root)/(aa)/(rest) keyed on the hex digest, and filename(hash) is the
slot path of a hash. The blobs actually present are the disk mapping. -/

structure FileStoreState where
  path : String
  disk : List (String × String)
deriving Repr, DecidableEq

/-- The hex digest part of a hash string of the form alg:hex (what hash_parse
returns as the value). -/
def hash_value_part (hash : String) : String :=
  String.mk ((hash.toList.dropWhile fun c => c ≠ ':').drop 1)

/-- Modelled from the spec: FileStore.filename(hash) is the content-addressed
slot path of the hash, whether or not a blob is stored there, in the layout
(store_root)/(aa)/(rest) over the first two hex characters of the digest. -/
def FileStore_filename (fs : FileStoreState) (hash : String) : String :=
  fs.path ++ "/" ++ String.mk ((hash_value_part hash).toList.take 2) ++ "/" ++
    String.mk ((hash_value_part hash).toList.drop 2)

/-- OutpackRoot.find_file_by_hash (pyorderly root.py lines 32-47): when a
file store is configured its slot path is returned outright; only when no
file store exists is the archive searched; with neither, the call fails. -/
def find_file_by_hash (h : String → String) (files : Option FileStoreState)
    (archive : Option ArchiveState) (hash : String) (candidates : List String) :
    Except String String :=
  match files with
  | some fs => .ok (FileStore_filename fs hash)
  | none =>
    match archive with
    | some ar =>
      match Archive_find_file h ar hash candidates with
      | (.ok p, _) => .ok p
      | (.errFileNotFound m, _) => .error m
      | (.errKeyError i, _) => .error ("KeyError: \x27" ++ i ++ "\x27")
    | none => .error "Neither filestore nor archive"

/-! ## Push engine (pyorderly/outpack/location_push.py) -/

/-- The push-relevant capabilities of a location driver: which of the given
packet ids and file hashes the remote does not have yet. -/
structure PushDriver where
  listUnknownPackets : List String → List String
  listUnknownFiles : List String → List String

structure LocationPushPlan where
  packets : List String
  files : List String
deriving Repr, DecidableEq

/-- Modelled from the spec: pyorderly.outpack.location_pull._find_all_dependencies
is not among the source files. Per the spec the push plan expands the
requested ids to their dependency closure, and the repository tests pin the
result as the sorted list of the closure including the inputs; dependency ids
are resolved through the local metadata index. The worklist adds at each
round the dependencies not collected yet; md.length rounds always suffice
because every round that continues adds an id with metadata. -/
def _find_all_dependencies_go (md : List (String × MetadataCore)) :
    Nat → List String → List String → List String
  | 0, ret, _ => ret
  | Nat.succ fuel, ret, frontier =>
    let deps :=
      (frontier.flatMap fun i =>
        match md.lookup i with
        | some m => m.depends.map (fun dep => dep.packet)
        | none => []).dedup
    let new := deps.filter fun i => !(ret.contains i)
    if new.isEmpty then ret
    else _find_all_dependencies_go md fuel (ret ++ new) new

def find_all_dependencies (ids : List String) (md : List (String × MetadataCore)) :
    List String :=
  List.insertionSort (· ≤ ·)
    (_find_all_dependencies_go md (md.length + 1) ids.dedup ids.dedup)

/-- location_build_push_plan (location_push.py lines 58-79): dependency
closure, the packets the driver reports unknown, the driver-unknown subset of
the distinct hashes across the missing packets files, and the missing
packets sorted lexicographically. -/
def location_build_push_plan (d : PushDriver) (packet_ids : List String)
    (md : List (String × MetadataCore)) : LocationPushPlan :=
  let all_packets := find_all_dependencies packet_ids md
  let missing_packets := d.listUnknownPackets all_packets
  let all_files :=
    (missing_packets.flatMap fun i =>
      match md.lookup i with
      | some m => m.files.map (fun f => f.hash)
      | none => []).dedup
  let missing_files := d.listUnknownFiles all_files
  ⟨List.insertionSort (· ≤ ·) missing_packets, missing_files⟩

/-- The observable upload calls a push makes, in order. -/
inductive PushEvent where
  | pushFile (path hash : String)
  | pushMetadata (id hash : String)
deriving Repr, DecidableEq

def PushEvent.isFile : PushEvent → Bool
  | .pushFile _ _ => true
  | .pushMetadata _ _ => false

/-- The file-upload loop of outpack_location_push (location_push.py lines
37-48): locate each missing file locally and push it; failing to locate one
aborts the push. -/
def _push_files (find_file : String → Option String) :
    List String → Except String (List PushEvent)
  | [] => .ok []
  | hsh :: rest =>
    match find_file hsh with
    | none => .error "Did not find suitable file, can\x27t push this packet"
    | some p => (_push_files find_file rest).map (fun evs => PushEvent.pushFile p hsh :: evs)

/-- The metadata-upload loop of outpack_location_push (location_push.py lines
50-53): push each planned packet id with the metadata hash recorded in the
local membership rows. -/
def _push_metadata_events (localRows : List (String × PacketLocation)) :
    List String → Except String (List PushEvent)
  | [] => .ok []
  | pid :: rest =>
    match localRows.lookup pid with
    | none => .error ("KeyError: \x27" ++ pid ++ "\x27")
    | some pl =>
      (_push_metadata_events localRows rest).map
        (fun evs => PushEvent.pushMetadata pid pl.hash :: evs)

/-- outpack_location_push (location_push.py lines 18-55): resolve the target
location (local and orphan are filtered out and leave nothing to push to),
build the plan, upload every missing file, then the metadata in plan order.
find_file stands for root.find_file_by_hash with the plan packets as
candidates; md stands for root.index.all_metadata(). -/
def outpack_location_push (find_file : String → Option String) (st : RootState)
    (d : PushDriver) (location : String) (ids : List String)
    (md : List (String × MetadataCore)) :
    Except String (LocationPushPlan × List PushEvent) :=
  match location_resolve_valid (.many [location]) st false false false with
  | .error e => .error e
  | .ok names =>
    match names with
    | [_] =>
      let plan := location_build_push_plan d ids md
      match _push_files find_file plan.files with
      | .error e => .error e
      | .ok evF =>
        let localRows := (st.locationStore.lookup LOCATION_LOCAL).getD []
        match _push_metadata_events localRows plan.packets with
        | .error e => .error e
        | .ok evM => .ok (plan, evF ++ evM)
    | _ => .error "too many values to unpack"

/-! ## Helper lemmas -/

lemma not_mem_erase_of_count_le_one (l : List String) (a : String)
    (h : l.count a ≤ 1) : a ∉ l.erase a := by
  intro hm
  have h1 : 1 ≤ (l.erase a).count a := List.one_le_count_iff.mpr hm
  have h2 := List.count_erase_self a l
  omega

lemma mem_of_mem_erase {l : List String} {a b : String} (h : a ∈ l.erase b) : a ∈ l :=
  (List.erase_sublist b l).mem h

/-- Auxiliary for C10: when the filesystem root is the only directory holding
the searched file, the descending search finds nothing (the loop stops
strictly before the anchor). -/
lemma find_file_descend_misses_root :
    ∀ (n : Nat) (p : List String), p.length ≤ n → find_file_descend [[]] p = none := by
  intro n
  induction n with
  | zero =>
    intro p hp
    have : p = [] := List.length_eq_zero.mp (Nat.le_zero.mp hp)
    subst this
    simp [find_file_descend]
  | succ n ih =>
    intro p hp
    cases p with
    | nil => simp [find_file_descend]
    | cons x xs =>
      rw [find_file_descend]
      have hc : ([[]] : List (List String)).contains (x :: xs) = false := by
        simp [List.contains]
      rw [hc]
      simp only [Bool.false_eq_true, if_false]
      apply ih
      simp only [List.dropLast_cons_of_ne_nil, List.length_dropLast, List.length_cons] at *
      omega

/-! ## Claim theorems -/

/-- C6: adding a location named local or orphan, removing local or orphan,
and renaming local or orphan all fail with an error, and the repository state
(in particular the set of configured locations) is unchanged by the failed
call. -/
theorem C6_reserved_location_names (st : RootState) (name other type_ : String)
    (args : Option (List (String × String))) (target_is_root : Bool)
    (hres : name ∈ LOCATION_RESERVED_NAME) :
    (outpack_location_add st name type_ args target_is_root).1 = st
    ∧ (outpack_location_add st name type_ args target_is_root).2.isSome
    ∧ (outpack_location_remove st name).1 = st
    ∧ (outpack_location_remove st name).2.isSome
    ∧ (outpack_location_rename st name other).1 = st
    ∧ (outpack_location_rename st name other).2.isSome := by
  refine ⟨?_, ?_, ?_, ?_, ?_, ?_⟩ <;>
    simp [outpack_location_add, outpack_location_remove, outpack_location_rename, hres]

/-- Witness for C6 at the default repository and the reserved names. -/
theorem C6_reserved_location_names_witness :
    "local" ∈ LOCATION_RESERVED_NAME
    ∧ "orphan" ∈ LOCATION_RESERVED_NAME
    ∧ (outpack_location_remove
        ⟨[("local", ⟨"local", "local", none⟩)], [], []⟩ "local").1 =
      ⟨[("local", ⟨"local", "local", none⟩)], [], []⟩ := by
  refine ⟨by decide, by decide, ?_⟩
  exact (C6_reserved_location_names
    ⟨[("local", ⟨"local", "local", none⟩)], [], []⟩
    "local" "upstream" "path" none true (by decide)).2.2.1

/-- C7: Config.new fails exactly when path_archive is None and the file store
is off, and otherwise returns the config with hash algorithm sha256; but the
location field it builds is the bare one-element list holding the local
location, not the one-entry name-keyed mapping: the location encoder of the
config class itself fails on it (the AttributeError of _encode_location_dict),
and the field is not equal to any mapping value. -/
theorem C7_config_new_location_field (path_archive : Option String)
    (use_file_store require_complete_tree : Bool) :
    Config.new path_archive use_file_store require_complete_tree =
      (if path_archive.isNone && !use_file_store then
        .error "If \x27path_archive\x27 is None, \x27use_file_store\x27 must be True"
      else
        .ok ⟨outpack_schema_version,
          ⟨"sha256", path_archive, use_file_store, require_complete_tree⟩,
          .asList [⟨"local", "local", none⟩]⟩)
    ∧ _encode_location_dict (.asList [⟨"local", "local", none⟩]) = none
    ∧ ∀ m, LocationField.asList [⟨"local", "local", none⟩] ≠ LocationField.asMap m := by
  refine ⟨rfl, rfl, ?_⟩
  intro m h
  exact LocationField.noConfusion h

/-- C8 counterexample: write_config emits a single direct write to
.outpack/config.json and mark_known a mkdir plus a single direct write to the
membership file; neither trace contains a rename, so the claimed
tmp-plus-rename atomicity fails at this concrete repository. -/
theorem C8_counterexample :
    ¬ uses_tmp_rename
      ((write_config
        ⟨"0.0.1", ⟨"sha256", some "archive", false, false⟩,
          .asMap [("local", ⟨"local", "local", none⟩)]⟩ "/repo").getD [])
      (_config_path "/repo")
    ∧ ¬ uses_tmp_rename
      (mark_known_ops "/repo" "20230101-000000-aaaaaaaa" "upstream" "sha256:abcd" 0)
      "/repo/.outpack/location/upstream/20230101-000000-aaaaaaaa" := by
  constructor
  · rintro ⟨-, hdirect⟩
    exact absurd hdirect (by decide)
  · rintro ⟨-, hdirect⟩
    exact absurd hdirect (by decide)

/-- C8 amended: write_config writes the serialized config directly to
.outpack/config.json in one write, and mark_known creates the location
directory and writes the membership row directly to its final path; neither
operation goes through a temporary file and a rename, so the tmp-plus-rename
atomicity claimed by the spec does not hold for either. -/
theorem C8_amended (c : Config) (root_path packet_id location hash : String)
    (time : Nat) (s : String) (hser : c.to_json = some s) :
    write_config c root_path = some [FsOp.write (_config_path root_path) s]
    ∧ mark_known_ops root_path packet_id location hash time =
        [FsOp.mkdirp (root_path ++ "/.outpack/location/" ++ location),
         FsOp.write (root_path ++ "/.outpack/location/" ++ location ++ "/" ++ packet_id)
           (PacketLocation.to_json ⟨packet_id, time, hash⟩)]
    ∧ ¬ uses_tmp_rename ((write_config c root_path).getD []) (_config_path root_path)
    ∧ ¬ uses_tmp_rename (mark_known_ops root_path packet_id location hash time)
        (root_path ++ "/.outpack/location/" ++ location ++ "/" ++ packet_id) := by
  refine ⟨by simp [write_config, hser], rfl, ?_, ?_⟩
  · rintro ⟨⟨tmp, content, hne, hw, hr⟩, -⟩
    simp [write_config, hser] at hr
  · rintro ⟨⟨tmp, content, hne, hw, hr⟩, -⟩
    simp [mark_known_ops] at hr

/-- Witness for C8 amended at a concrete mapping-form config. -/
theorem C8_amended_witness :
    (Config.to_json
      ⟨"0.0.1", ⟨"sha256", some "archive", false, false⟩,
        .asMap [("local", ⟨"local", "local", none⟩)]⟩).isSome
    ∧ ¬ uses_tmp_rename
        (mark_known_ops "/repo2" "20230101-000000-bbbbbbbb" "up" "sha256:ff00" 7)
        "/repo2/.outpack/location/up/20230101-000000-bbbbbbbb" := by
  refine ⟨by decide, ?_⟩
  exact (C8_amended
    ⟨"0.0.1", ⟨"sha256", some "archive", false, false⟩,
      .asMap [("local", ⟨"local", "local", none⟩)]⟩
    "/repo2" "20230101-000000-bbbbbbbb" "up" "sha256:ff00" 7
    _ rfl).2.2.2

/-- C9 counterexample: with the default repository (only the built-in local
location configured), resolving the list input with local repeated twice and
include_local false returns a list that still contains local: list.remove
deletes only the first occurrence. -/
theorem C9_counterexample :
    location_resolve_valid (.many ["local", "local"])
      ⟨[("local", ⟨"local", "local", none⟩)], [], []⟩ false false true =
      .ok ["local"]
    ∧ "local" ∈ (["local"] : List String) := by
  exact ⟨rfl, by decide⟩

/-- Core of C9: the filter step removes local entirely whenever it occurs at
most once in its input. -/
lemma location_filter_no_local (l0 : List String)
    (include_orphan allow_no_locations : Bool) (res : List String)
    (hc : l0.count "local" ≤ 1)
    (hres : _location_filter l0 false include_orphan allow_no_locations = .ok res) :
    "local" ∉ res := by
  unfold _location_filter at hres
  simp only [Bool.not_false, Bool.true_and, LOCATION_LOCAL, LOCATION_ORPHAN] at hres
  have h1 : "local" ∉ (if l0.contains "local" then l0.erase "local" else l0) := by
    by_cases hmem : l0.contains "local"
    · rw [if_pos hmem]
      exact not_mem_erase_of_count_le_one l0 "local" hc
    · rw [if_neg hmem]
      simpa using hmem
  set l1 := if l0.contains "local" then l0.erase "local" else l0 with hl1
  have h2 : "local" ∉ (if !include_orphan && l1.contains "orphan" then l1.erase "orphan" else l1) := by
    by_cases ho : (!include_orphan && l1.contains "orphan") = true
    · rw [if_pos ho]
      intro hm
      exact h1 (mem_of_mem_erase hm)
    · rw [if_neg ho]
      exact h1
  set l2 := if !include_orphan && l1.contains "orphan" then l1.erase "orphan" else l1 with hl2
  by_cases he : (l2.isEmpty && !allow_no_locations) = true
  · rw [if_pos he] at hres
    exact absurd hres (by simp)
  · rw [if_neg he] at hres
    have : res = l2 := by
      injection hres with h
      exact h.symm
    subst this
    exact h2

/-- C9 amended: with include_local false the resolved list never contains
local, provided local occurs at most once in the pre-filter list (always the
case for the None input over a duplicate-free config and for a single-string
input; a list input that repeats local keeps the later occurrences, since
list.remove deletes only the first). -/
theorem C9_amended (arg : LocationsArg) (st : RootState)
    (include_orphan allow_no_locations : Bool) (res : List String)
    (hcount : (match arg with
      | .noneArg => (outpack_location_list st).count "local"
      | .one _ => 0
      | .many l => l.count "local") ≤ 1)
    (hres : location_resolve_valid arg st false include_orphan allow_no_locations =
      .ok res) :
    "local" ∉ res := by
  unfold location_resolve_valid at hres
  rcases arg with _ | s | l
  · simp only [_location_arg_resolve] at hres
    exact location_filter_no_local _ include_orphan allow_no_locations res hcount hres
  · simp only [_location_arg_resolve] at hres
    by_cases hmem : (outpack_location_list st).contains s
    · rw [if_pos hmem] at hres
      simp only at hres
      have hc : ([s] : List String).count "local" ≤ 1 := by
        by_cases hs : s = "local" <;> simp [hs, List.count_cons, List.count_nil]
      exact location_filter_no_local [s] include_orphan allow_no_locations res hc hres
    · rw [if_neg hmem] at hres
      exact absurd hres (by simp)
  · simp only [_location_arg_resolve] at hres
    by_cases hunk : ((l.filter fun x => !((outpack_location_list st).contains x)).dedup).isEmpty
    · rw [if_pos hunk] at hres
      simp only at hres
      exact location_filter_no_local l include_orphan allow_no_locations res hcount hres
    · rw [if_neg hunk] at hres
      exact absurd hres (by simp)

/-- Witness for C9 amended: the single-string input over the default
repository resolves away from local. -/
theorem C9_amended_witness :
    ("local" ∉ (["up"] : List String)) ∧
    location_resolve_valid (.one "up")
      ⟨[("local", ⟨"local", "local", none⟩), ("up", ⟨"up", "path", none⟩)], [], []⟩
      false false true = .ok ["up"] := by
  constructor
  · exact C9_amended (.one "up")
      ⟨[("local", ⟨"local", "local", none⟩), ("up", ⟨"up", "path", none⟩)], [], []⟩
      false true ["up"] (by decide) rfl
  · rfl

/-- C10: find_file_descend inspects only the ancestors strictly below the
filesystem anchor, so when the only directory containing .outpack is the
anchor itself it returns None for every starting path, and root_open with
locate fails with the did-not-find error even though a repository exists at
the anchor. -/
theorem C10_root_open_descend_misses_anchor :
    (∀ p : List String, find_file_descend [[]] p = none)
    ∧ root_open_locate [[]] ["home", "user"] =
        .error "Did not find existing outpack root in \x27/home/user\x27" := by
  constructor
  · intro p
    exact find_file_descend_misses_root p.length p le_rfl
  · have h := find_file_descend_misses_root 2 ["home", "user"] (by decide)
    rw [root_open_locate, h]
    rfl

/-! ## Archive scan lemmas (for C3) -/

lemma hash_file_eq_some_iff (h : String → String) (disk : List (String × String))
    (p hsh : String) :
    hash_file h disk p = some hsh ↔ ∃ c, disk.lookup p = some c ∧ h c = hsh := by
  unfold hash_file
  cases hl : disk.lookup p <;> simp [hl]

lemma find_in_packet_go_found_sound (h : String → String)
    (disk : List (String × String)) (root : String) (meta : MetadataCore)
    (hash : String) :
    ∀ (files : List PacketFile) (diags d' : List String) (p : String),
      _find_file_in_packet_go h disk root meta hash files diags = (.found p, d') →
      hash_file h disk p = some hash := by
  intro files
  induction files with
  | nil =>
    intro diags d' p hgo
    simp [_find_file_in_packet_go] at hgo
  | cons f rest ih =>
    intro diags d' p hgo
    simp only [_find_file_in_packet_go] at hgo
    by_cases hfh : f.hash = hash
    · rw [if_pos hfh] at hgo
      cases hhf : hash_file h disk (archive_path root meta f) with
      | none => rw [hhf] at hgo; simp at hgo
      | some hv =>
        rw [hhf] at hgo
        simp only [] at hgo
        by_cases hvh : hv = hash
        · rw [if_pos hvh] at hgo
          simp at hgo
          rw [← hgo.1, hhf, hvh]
        · rw [if_neg hvh] at hgo
          exact ih _ _ _ hgo
    · rw [if_neg hfh] at hgo
      exact ih _ _ _ hgo

lemma find_in_packet_go_none (h : String → String) (disk : List (String × String))
    (root : String) (meta : MetadataCore) (hash : String) :
    ∀ (files : List PacketFile) (diags : List String),
      (∀ f ∈ files, f.hash = hash → (disk.lookup (archive_path root meta f)).isSome) →
      (∀ f ∈ files, ¬(f.hash = hash ∧
        hash_file h disk (archive_path root meta f) = some hash)) →
      ∃ d', _find_file_in_packet_go h disk root meta hash files diags = (.notFoundHere, d') := by
  intro files
  induction files with
  | nil =>
    intro diags _ _
    exact ⟨diags, rfl⟩
  | cons f rest ih =>
    intro diags hpresent hnone
    simp only [_find_file_in_packet_go]
    by_cases hfh : f.hash = hash
    · rw [if_pos hfh]
      have hsome : (disk.lookup (archive_path root meta f)).isSome :=
        hpresent f (by simp) hfh
      cases hl : disk.lookup (archive_path root meta f) with
      | none => rw [hl] at hsome; simp at hsome
      | some c =>
        have hhf : hash_file h disk (archive_path root meta f) = some (h c) := by
          simp [hash_file, hl]
        simp only [hhf]
        have hne : ¬(h c = hash) := by
          intro hceq
          exact hnone f (by simp) ⟨hfh, by rw [hhf, hceq]⟩
        rw [if_neg hne]
        exact ih _ (fun g hg => hpresent g (by simp [hg]))
          (fun g hg => hnone g (by simp [hg]))
    · rw [if_neg hfh]
      exact ih diags (fun g hg => hpresent g (by simp [hg]))
        (fun g hg => hnone g (by simp [hg]))

lemma find_in_packet_go_found (h : String → String) (disk : List (String × String))
    (root : String) (meta : MetadataCore) (hash : String) :
    ∀ (files : List PacketFile) (diags : List String),
      (∀ f ∈ files, f.hash = hash → (disk.lookup (archive_path root meta f)).isSome) →
      (∃ f ∈ files, f.hash = hash ∧
        hash_file h disk (archive_path root meta f) = some hash) →
      ∃ p d', _find_file_in_packet_go h disk root meta hash files diags = (.found p, d') := by
  intro files
  induction files with
  | nil =>
    intro diags _ hex
    simp at hex
  | cons f rest ih =>
    intro diags hpresent hex
    simp only [_find_file_in_packet_go]
    by_cases hfh : f.hash = hash
    · rw [if_pos hfh]
      have hsome : (disk.lookup (archive_path root meta f)).isSome :=
        hpresent f (by simp) hfh
      cases hl : disk.lookup (archive_path root meta f) with
      | none => rw [hl] at hsome; simp at hsome
      | some c =>
        have hhf : hash_file h disk (archive_path root meta f) = some (h c) := by
          simp [hash_file, hl]
        simp only [hhf]
        by_cases hch : h c = hash
        · rw [if_pos hch]
          exact ⟨archive_path root meta f, diags, rfl⟩
        · rw [if_neg hch]
          apply ih
          · exact fun g hg => hpresent g (by simp [hg])
          · rcases hex with ⟨f0, hf0mem, hf0h, hf0v⟩
            rcases List.mem_cons.mp hf0mem with heq | hmem
            · subst heq
              rw [hhf] at hf0v
              exact absurd (Option.some_injective _ hf0v) hch
            · exact ⟨f0, hmem, hf0h, hf0v⟩
    · rw [if_neg hfh]
      apply ih
      · exact fun g hg => hpresent g (by simp [hg])
      · rcases hex with ⟨f0, hf0mem, hf0h, hf0v⟩
        rcases List.mem_cons.mp hf0mem with heq | hmem
        · subst heq
          exact absurd hf0h hfh
        · exact ⟨f0, hmem, hf0h, hf0v⟩

lemma packet_verified_iff (h : String → String) (st : ArchiveState)
    (hash pid : String) (meta : MetadataCore)
    (hm : st.metadata.lookup pid = some meta) :
    packet_has_verified_file h st hash pid = true ↔
      ∃ f ∈ meta.files, f.hash = hash ∧
        hash_file h st.disk (archive_path st.path meta f) = some hash := by
  unfold packet_has_verified_file
  rw [hm]
  rw [List.any_eq_true]
  constructor
  · rintro ⟨f, hf, hb⟩
    rw [Bool.and_eq_true] at hb
    obtain ⟨hfh, hmatch⟩ := hb
    refine ⟨f, hf, by simpa using hfh, ?_⟩
    revert hmatch
    cases hl : hash_file h st.disk (archive_path st.path meta f) with
    | none =>
      intro hmatch
      simp only [] at hmatch
      exact absurd hmatch (by simp)
    | some hv =>
      intro hmatch
      simp only [] at hmatch
      have hvh : hv = hash := by simpa using hmatch
      rw [hvh]
  · rintro ⟨f, hf, hfh, hv⟩
    refine ⟨f, hf, ?_⟩
    rw [Bool.and_eq_true]
    refine ⟨by simpa using hfh, ?_⟩
    simp only [hv]
    simp

lemma files_on_disk_spec (st : ArchiveState) (hash pid : String)
    (meta : MetadataCore) (hm : st.metadata.lookup pid = some meta)
    (hd : packet_files_on_disk st hash pid = true) :
    ∀ f ∈ meta.files, f.hash = hash →
      (st.disk.lookup (archive_path st.path meta f)).isSome := by
  unfold packet_files_on_disk at hd
  rw [hm, List.all_eq_true] at hd
  intro f hf hfh
  have hor := hd f hf
  rw [Bool.or_eq_true] at hor
  rcases hor with hne | hsome
  · rw [bne_iff_ne] at hne
    exact absurd hfh hne
  · exact hsome

lemma archive_go_sound (h : String → String) (st : ArchiveState) (hash : String) :
    ∀ (ids : List String) (diags d : List String) (p : String),
      _archive_find_file_go h st hash ids diags = (.ok p, d) →
      hash_file h st.disk p = some hash := by
  intro ids
  induction ids with
  | nil =>
    intro diags d p hgo
    simp [_archive_find_file_go] at hgo
  | cons pid rest ih =>
    intro diags d p hgo
    simp only [_archive_find_file_go] at hgo
    cases hm : st.metadata.lookup pid with
    | none => rw [hm] at hgo; simp at hgo
    | some meta =>
      rw [hm] at hgo
      simp only [] at hgo
      rcases hin : _find_file_in_packet_go h st.disk st.path meta hash meta.files diags
        with ⟨outcome, d1⟩
      rw [hin] at hgo
      cases outcome with
      | found q =>
        simp only [] at hgo
        simp at hgo
        rw [← hgo.1]
        exact find_in_packet_go_found_sound h st.disk st.path meta hash
          meta.files diags d1 q hin
      | notFoundHere =>
        simp only [] at hgo
        exact ih _ _ _ hgo
      | diskMissing q =>
        simp only [] at hgo
        simp at hgo

lemma archive_go_found (h : String → String) (st : ArchiveState) (hash : String) :
    ∀ (ids : List String) (diags : List String),
      (∀ id ∈ ids, (st.metadata.lookup id).isSome) →
      (∀ id ∈ ids, packet_files_on_disk st hash id = true) →
      (∃ id ∈ ids, packet_has_verified_file h st hash id = true) →
      ∃ p d, _archive_find_file_go h st hash ids diags = (.ok p, d) := by
  intro ids
  induction ids with
  | nil =>
    intro diags _ _ hex
    simp at hex
  | cons pid rest ih =>
    intro diags hmeta hdisk hex
    simp only [_archive_find_file_go]
    have hsome : (st.metadata.lookup pid).isSome := hmeta pid (by simp)
    cases hm : st.metadata.lookup pid with
    | none => rw [hm] at hsome; simp at hsome
    | some meta =>
      simp only []
      have hpresent := files_on_disk_spec st hash pid meta hm (hdisk pid (by simp))
      by_cases hver : packet_has_verified_file h st hash pid = true
      · obtain ⟨q, d1, hfound⟩ :=
          find_in_packet_go_found h st.disk st.path meta hash meta.files diags
            hpresent ((packet_verified_iff h st hash pid meta hm).mp hver)
        rw [hfound]
        exact ⟨q, d1, rfl⟩
      · have hnone : ∀ f ∈ meta.files, ¬(f.hash = hash ∧
            hash_file h st.disk (archive_path st.path meta f) = some hash) := by
          intro f hf hcon
          exact hver ((packet_verified_iff h st hash pid meta hm).mpr
            ⟨f, hf, hcon.1, hcon.2⟩)
        obtain ⟨d1, hnf⟩ :=
          find_in_packet_go_none h st.disk st.path meta hash meta.files diags
            hpresent hnone
        rw [hnf]
        simp only []
        apply ih d1 (fun i hi => hmeta i (by simp [hi]))
          (fun i hi => hdisk i (by simp [hi]))
        rcases hex with ⟨i0, hi0mem, hi0v⟩
        rcases List.mem_cons.mp hi0mem with heq | hmem
        · subst heq
          exact absurd hi0v hver
        · exact ⟨i0, hmem, hi0v⟩

lemma archive_go_exhaust (h : String → String) (st : ArchiveState) (hash : String) :
    ∀ (ids : List String) (diags : List String),
      (∀ id ∈ ids, (st.metadata.lookup id).isSome) →
      (∀ id ∈ ids, packet_files_on_disk st hash id = true) →
      (∀ id ∈ ids, packet_has_verified_file h st hash id = false) →
      ∃ d, _archive_find_file_go h st hash ids diags =
        (.errFileNotFound "File not found in archive, or corrupt", d) := by
  intro ids
  induction ids with
  | nil =>
    intro diags _ _ _
    exact ⟨diags, rfl⟩
  | cons pid rest ih =>
    intro diags hmeta hdisk hnover
    simp only [_archive_find_file_go]
    have hsome : (st.metadata.lookup pid).isSome := hmeta pid (by simp)
    cases hm : st.metadata.lookup pid with
    | none => rw [hm] at hsome; simp at hsome
    | some meta =>
      simp only []
      have hpresent := files_on_disk_spec st hash pid meta hm (hdisk pid (by simp))
      have hnone : ∀ f ∈ meta.files, ¬(f.hash = hash ∧
          hash_file h st.disk (archive_path st.path meta f) = some hash) := by
        intro f hf hcon
        have := (packet_verified_iff h st hash pid meta hm).mpr ⟨f, hf, hcon.1, hcon.2⟩
        rw [hnover pid (by simp)] at this
        exact Bool.false_ne_true this
      obtain ⟨d1, hnf⟩ :=
        find_in_packet_go_none h st.disk st.path meta hash meta.files diags
          hpresent hnone
      rw [hnf]
      simp only []
      exact ih d1 (fun i hi => hmeta i (by simp [hi]))
        (fun i hi => hdisk i (by simp [hi]))
        (fun i hi => hnover i (by simp [hi]))

/-- C3: the archive search scans the candidates first and then every other
unpacked id; a returned path always re-hashes on disk to the requested hash
(so a file whose recorded hash matches but whose on-disk re-hash differs is
only rejected with a diagnostic and the scan moves on); the scan succeeds as
soon as any scanned packet holds a verified file, and when every packet is
exhausted without a verified match it fails with the FileNotFound error. The
disk-presence hypothesis excludes the orthogonal abort of re-hashing a file
deleted from disk (python propagates the FileNotFoundError of open there). -/
theorem C3_archive_find_file (h : String → String) (st : ArchiveState)
    (hash : String) (candidates : List String)
    (hmeta : ∀ id ∈ archive_scan_order st candidates, (st.metadata.lookup id).isSome)
    (hdisk : ∀ id ∈ archive_scan_order st candidates, packet_files_on_disk st hash id = true) :
    (∃ others, archive_scan_order st candidates = candidates ++ others
      ∧ ∀ i ∈ others, i ∈ st.unpacked ∧ i ∉ candidates)
    ∧ (∀ p d, Archive_find_file h st hash candidates = (.ok p, d) →
        hash_file h st.disk p = some hash)
    ∧ ((∃ id ∈ archive_scan_order st candidates,
          packet_has_verified_file h st hash id = true) →
        ∃ p d, Archive_find_file h st hash candidates = (.ok p, d))
    ∧ ((∀ id ∈ archive_scan_order st candidates,
          packet_has_verified_file h st hash id = false) →
        ∃ d, Archive_find_file h st hash candidates =
          (.errFileNotFound "File not found in archive, or corrupt", d)) := by
  refine ⟨?_, ?_, ?_, ?_⟩
  · refine ⟨(st.unpacked.filter fun i => !(candidates.contains i)).dedup, rfl, ?_⟩
    intro i hi
    have hi1 := List.mem_dedup.mp hi
    have hi2 := List.mem_filter.mp hi1
    refine ⟨hi2.1, ?_⟩
    intro hc
    have := hi2.2
    simp at this
    exact this hc
  · intro p d hfind
    exact archive_go_sound h st hash _ [] d p hfind
  · intro hex
    exact archive_go_found h st hash _ [] hmeta hdisk hex
  · intro hnover
    exact archive_go_exhaust h st hash _ [] hmeta hdisk hnover

/-- Witness for C3: a two-packet archive in which the candidate packet holds
a corrupted copy (recorded hash matches, content re-hashes differently) and
the other unpacked packet holds a good copy; the theorem applies and the path
it accepts re-hashes to the requested value. -/
theorem C3_archive_find_file_witness :
    hash_file (fun c => if c = "good" then "sha256:aabb" else "bad")
      [("arch/data/p1/a.txt", "corrupt"), ("arch/data/p2/b.txt", "good")]
      "arch/data/p2/b.txt" = some "sha256:aabb" := by
  exact (C3_archive_find_file (fun c => if c = "good" then "sha256:aabb" else "bad")
    ⟨"arch",
      [("p1", ⟨"p1", "data", [⟨"a.txt", "sha256:aabb", 1⟩], []⟩),
       ("p2", ⟨"p2", "data", [⟨"b.txt", "sha256:aabb", 1⟩], []⟩)],
      ["p1", "p2"],
      [("arch/data/p1/a.txt", "corrupt"), ("arch/data/p2/b.txt", "good")]⟩
    "sha256:aabb" ["p1"] (by decide) (by decide)).2.1
    "arch/data/p2/b.txt"
    ["Rejecting file from archive \x27a.txt\x27 in \x27data/p1\x27"] rfl

/-- C4 counterexample: with a file store configured but empty and an archive
holding a verified copy of the file, find_file_by_hash returns the (empty)
store slot path: the archive is never consulted, so the file present in the
archive is not found, contrary to the claimed fallback. -/
theorem C4_counterexample :
    find_file_by_hash (fun _ => "sha256:aabb")
      (some ⟨"store", []⟩)
      (some ⟨"arch", [("p1", ⟨"p1", "data", [⟨"a.txt", "sha256:aabb", 1⟩], []⟩)],
        ["p1"], [("arch/data/p1/a.txt", "content")]⟩)
      "sha256:aabb" [] = .ok "store/aa/bb"
    ∧ (FileStoreState.disk ⟨"store", []⟩).lookup "store/aa/bb" = none
    ∧ (Archive_find_file (fun _ => "sha256:aabb")
        ⟨"arch", [("p1", ⟨"p1", "data", [⟨"a.txt", "sha256:aabb", 1⟩], []⟩)],
          ["p1"], [("arch/data/p1/a.txt", "content")]⟩
        "sha256:aabb" []).1 = .ok "arch/data/p1/a.txt"
    ∧ "store/aa/bb" ≠ "arch/data/p1/a.txt" := by
  exact ⟨rfl, rfl, rfl, by decide⟩

/-- C4 amended: find_file_by_hash prefers the file store unconditionally:
with a store configured it returns the store slot path of the hash without
consulting the archive at all (even when the store does not hold the blob);
the archive is searched only when no file store is configured; and with
neither configured it fails with the configuration error. -/
theorem C4_amended (h : String → String) (hash : String) (candidates : List String) :
    (∀ (fs : FileStoreState) (archive : Option ArchiveState),
      find_file_by_hash h (some fs) archive hash candidates =
        .ok (FileStore_filename fs hash))
    ∧ (∀ (ar : ArchiveState) (p : String) (d : List String),
        Archive_find_file h ar hash candidates = (.ok p, d) →
        find_file_by_hash h none (some ar) hash candidates = .ok p)
    ∧ find_file_by_hash h none none hash candidates =
        .error "Neither filestore nor archive" := by
  refine ⟨fun fs archive => rfl, ?_, rfl⟩
  intro ar p d hfind
  simp [find_file_by_hash, hfind]

/-- Witness for C4 amended: the archive branch at a concrete repository with
no file store configured. -/
theorem C4_amended_witness :
    find_file_by_hash (fun _ => "sha256:aabb") none
      (some ⟨"arch", [("p1", ⟨"p1", "data", [⟨"a.txt", "sha256:aabb", 1⟩], []⟩)],
        ["p1"], [("arch/data/p1/a.txt", "content")]⟩)
      "sha256:aabb" [] = .ok "arch/data/p1/a.txt" := by
  exact (C4_amended (fun _ => "sha256:aabb") "sha256:aabb" []).2.1
    ⟨"arch", [("p1", ⟨"p1", "data", [⟨"a.txt", "sha256:aabb", 1⟩], []⟩)],
      ["p1"], [("arch/data/p1/a.txt", "content")]⟩
    "arch/data/p1/a.txt" [] rfl

/-! ## Pull metadata lemmas (for C1 and C2) -/

lemma alistKeys_append {α : Type} (a b : List (String × α)) :
    alistKeys (a ++ b) = alistKeys a ++ alistKeys b := by
  simp [alistKeys]

/-- Structural invariants of the fetch loop: the config and the membership
rows are untouched, fetched ids were unknown in the snapshot, and every
persisted entry was reported by the location and verifies against the
reported hash. -/
lemma pull_go_spec (h : String → String) (d : PullDriver) (loc : String)
    (kh : List String) :
    ∀ (l : List (String × PacketLocation)) (st : RootState) (fetched : List String),
      (_pull_all_metadata_go h d loc kh st fetched l).state.locations = st.locations
      ∧ (_pull_all_metadata_go h d loc kh st fetched l).state.locationStore = st.locationStore
      ∧ (∃ fnew, (_pull_all_metadata_go h d loc kh st fetched l).fetched = fetched ++ fnew
          ∧ ∀ i ∈ fnew, kh.contains i = false)
      ∧ (∃ news, (_pull_all_metadata_go h d loc kh st fetched l).state.metadataStore =
            st.metadataStore ++ news
          ∧ ∀ pr ∈ news, ∃ pl, (pr.1, pl) ∈ l ∧ h pr.2 = pl.hash) := by
  intro l
  induction l with
  | nil =>
    intro st fetched
    refine ⟨rfl, rfl, ⟨[], ?_, by simp⟩, ⟨[], ?_, by simp⟩⟩
    · simp [_pull_all_metadata_go]
    · simp [_pull_all_metadata_go]
  | cons pr rest ih =>
    intro st fetched
    rcases pr with ⟨pid, pl⟩
    simp only [_pull_all_metadata_go]
    by_cases hk : kh.contains pid
    · rw [if_pos hk]
      obtain ⟨h1, h2, ⟨fnew, hf, hfprop⟩, ⟨news, hn, hnprop⟩⟩ := ih st fetched
      exact ⟨h1, h2, ⟨fnew, hf, hfprop⟩,
        ⟨news, hn, fun q hq => by
          obtain ⟨pl', hmem, hh⟩ := hnprop q hq
          exact ⟨pl', by simp [hmem], hh⟩⟩⟩
    · rw [if_neg hk]
      cases hm : d.metadataOf pid with
      | none =>
        refine ⟨rfl, rfl, ⟨[pid], rfl, ?_⟩, ⟨[], by simp, by simp⟩⟩
        intro i hi
        rw [List.mem_singleton.mp hi]
        exact Bool.of_not_eq_true hk
      | some m =>
        simp only []
        by_cases hh : h m = pl.hash
        · rw [if_pos hh]
          obtain ⟨h1, h2, ⟨fnew, hf, hfprop⟩, ⟨news, hn, hnprop⟩⟩ :=
            ih { st with metadataStore := st.metadataStore ++ [(pid, m)] } (fetched ++ [pid])
          refine ⟨h1, h2, ⟨[pid] ++ fnew, by rw [hf]; simp, ?_⟩,
            ⟨(pid, m) :: news, by rw [hn]; simp, ?_⟩⟩
          · intro i hi
            rcases List.mem_append.mp hi with hi1 | hi2
            · rw [List.mem_singleton.mp hi1]
              exact Bool.of_not_eq_true hk
            · exact hfprop i hi2
          · intro q hq
            rcases List.mem_cons.mp hq with heq | hmem
            · subst heq
              exact ⟨pl, by simp, hh⟩
            · obtain ⟨pl', hmem', hh'⟩ := hnprop q hmem
              exact ⟨pl', by simp [hmem'], hh'⟩
        · rw [if_neg hh]
          refine ⟨rfl, rfl, ⟨[pid], rfl, ?_⟩, ⟨[], by simp, by simp⟩⟩
          intro i hi
          rw [List.mem_singleton.mp hi]
          exact Bool.of_not_eq_true hk

/-- When every unknown id the location reports fetches a payload that
verifies against the reported hash, the fetch loop succeeds and persists
exactly the unknown ids, in the reported order. -/
lemma pull_go_success (h : String → String) (d : PullDriver) (loc : String)
    (kh : List String) :
    ∀ (l : List (String × PacketLocation)) (st : RootState) (fetched : List String),
      (∀ pr ∈ l, kh.contains pr.1 = false →
        ∃ m, d.metadataOf pr.1 = some m ∧ h m = pr.2.hash) →
      (_pull_all_metadata_go h d loc kh st fetched l).err = none
      ∧ alistKeys (_pull_all_metadata_go h d loc kh st fetched l).state.metadataStore =
          alistKeys st.metadataStore ++ (l.map Prod.fst).filter (fun i => !(kh.contains i)) := by
  intro l
  induction l with
  | nil =>
    intro st fetched _
    exact ⟨rfl, by simp [_pull_all_metadata_go]⟩
  | cons pr rest ih =>
    intro st fetched hall
    rcases pr with ⟨pid, pl⟩
    simp only [_pull_all_metadata_go]
    by_cases hk : kh.contains pid
    · rw [if_pos hk]
      obtain ⟨he, hkeys⟩ := ih st fetched (fun q hq => hall q (by simp [hq]))
      refine ⟨he, ?_⟩
      rw [hkeys, List.map_cons, List.filter_cons]
      have hk' : pid ∈ kh := by simpa using hk
      simp [hk']
    · rw [if_neg hk]
      obtain ⟨m, hm, hmh⟩ := hall (pid, pl) (by simp) (Bool.of_not_eq_true hk)
      rw [hm]
      simp only []
      rw [if_pos hmh]
      obtain ⟨he, hkeys⟩ :=
        ih { st with metadataStore := st.metadataStore ++ [(pid, m)] } (fetched ++ [pid])
          (fun q hq => hall q (by simp [hq]))
      refine ⟨he, ?_⟩
      rw [hkeys, List.map_cons, List.filter_cons]
      have hk' : pid ∉ kh := by simpa using hk
      simp [alistKeys, hk']

/-- When every unknown id is fetchable but some unknown id fails
verification, the fetch loop stops with the MetadataHashMismatch error of
some failing id. -/
lemma pull_go_mismatch (h : String → String) (d : PullDriver) (loc : String)
    (kh : List String) :
    ∀ (l : List (String × PacketLocation)) (st : RootState) (fetched : List String),
      (∀ pr ∈ l, kh.contains pr.1 = false → (d.metadataOf pr.1).isSome) →
      (∃ pr ∈ l, kh.contains pr.1 = false ∧
        ∀ m, d.metadataOf pr.1 = some m → h m ≠ pr.2.hash) →
      ∃ id, (_pull_all_metadata_go h d loc kh st fetched l).err =
          some (.metadataHashMismatch id loc)
        ∧ ∃ pl', (id, pl') ∈ l ∧ kh.contains id = false
            ∧ ∀ m, d.metadataOf id = some m → h m ≠ pl'.hash := by
  intro l
  induction l with
  | nil =>
    intro st fetched _ hex
    simp at hex
  | cons pr rest ih =>
    intro st fetched hfetchable hex
    rcases pr with ⟨pid, pl⟩
    simp only [_pull_all_metadata_go]
    by_cases hk : kh.contains pid
    · rw [if_pos hk]
      have hex' : ∃ q ∈ rest, kh.contains q.1 = false ∧
          ∀ m, d.metadataOf q.1 = some m → h m ≠ q.2.hash := by
        rcases hex with ⟨q, hqmem, hqk, hqbad⟩
        rcases List.mem_cons.mp hqmem with heq | hmem
        · subst heq
          rw [hk] at hqk
          exact absurd hqk (by simp)
        · exact ⟨q, hmem, hqk, hqbad⟩
      obtain ⟨id, herr, pl', hmem, hkid, hbad⟩ :=
        ih st fetched (fun q hq => hfetchable q (by simp [hq])) hex'
      exact ⟨id, herr, pl', by simp [hmem], hkid, hbad⟩
    · rw [if_neg hk]
      have hsome : (d.metadataOf pid).isSome :=
        hfetchable (pid, pl) (by simp) (Bool.of_not_eq_true hk)
      cases hm : d.metadataOf pid with
      | none => rw [hm] at hsome; simp at hsome
      | some m =>
        simp only []
        by_cases hh : h m = pl.hash
        · rw [if_pos hh]
          have hex' : ∃ q ∈ rest, kh.contains q.1 = false ∧
              ∀ m', d.metadataOf q.1 = some m' → h m' ≠ q.2.hash := by
            rcases hex with ⟨q, hqmem, hqk, hqbad⟩
            rcases List.mem_cons.mp hqmem with heq | hmem
            · subst heq
              exact absurd hh (hqbad m hm)
            · exact ⟨q, hmem, hqk, hqbad⟩
          obtain ⟨id, herr, pl', hmem, hkid, hbad⟩ :=
            ih { st with metadataStore := st.metadataStore ++ [(pid, m)] }
              (fetched ++ [pid]) (fun q hq => hfetchable q (by simp [hq])) hex'
          exact ⟨id, herr, pl', by simp [hmem], hkid, hbad⟩
        · rw [if_neg hh]
          refine ⟨pid, rfl, pl, by simp, Bool.of_not_eq_true hk, ?_⟩
          intro m' hm'
          rw [hm] at hm'
          rw [← Option.some_inj.mp hm']
          exact hh

/-- Membership characterization of the conflict set computed by
_validate_hashes. -/
lemma validate_pred_iff (d : PullDriver) (p : PacketLocation) :
    ((match d.list.lookup p.packet with
      | some pl => pl.hash != p.hash
      | none => false) = true) ↔
    ∃ pl, d.list.lookup p.packet = some pl ∧ pl.hash ≠ p.hash := by
  cases hl : d.list.lookup p.packet with
  | none => simp
  | some pl => simp [bne_iff_ne]

lemma validate_hashes_some_iff (d : PullDriver) (packets : List PacketLocation) :
    (∃ ids, _validate_hashes d packets = some ids) ↔
    ∃ p ∈ packets, ∃ pl, d.list.lookup p.packet = some pl ∧ pl.hash ≠ p.hash := by
  unfold _validate_hashes
  by_cases hemp : (((packets.filter fun p =>
      match d.list.lookup p.packet with
      | some pl => pl.hash != p.hash
      | none => false).map (fun p => p.packet)).dedup).isEmpty
  · rw [if_pos hemp]
    simp only [List.isEmpty_iff] at hemp
    constructor
    · rintro ⟨ids, hids⟩
      exact absurd hids (by simp)
    · rintro ⟨p, hpmem, pl, hpl, hne⟩
      have : p.packet ∈ ((packets.filter fun p =>
          match d.list.lookup p.packet with
          | some pl => pl.hash != p.hash
          | none => false).map (fun p => p.packet)).dedup := by
        rw [List.mem_dedup, List.mem_map]
        exact ⟨p, List.mem_filter.mpr ⟨hpmem, (validate_pred_iff d p).mpr ⟨pl, hpl, hne⟩⟩, rfl⟩
      rw [hemp] at this
      simp at this
  · rw [if_neg hemp]
    constructor
    · rintro -
      have hne : (((packets.filter fun p =>
          match d.list.lookup p.packet with
          | some pl => pl.hash != p.hash
          | none => false).map (fun p => p.packet)).dedup) ≠ [] := by
        intro hcon
        rw [hcon] at hemp
        exact hemp rfl
      obtain ⟨i, hi⟩ := List.exists_mem_of_ne_nil _ hne
      rw [List.mem_dedup, List.mem_map] at hi
      obtain ⟨p, hpf, hpp⟩ := hi
      have hp2 := List.mem_filter.mp hpf
      obtain ⟨pl, hpl, hplne⟩ := (validate_pred_iff d p).mp hp2.2
      exact ⟨p, hp2.1, pl, hpl, hplne⟩
    · rintro -
      exact ⟨_, rfl⟩

lemma validate_hashes_mem (d : PullDriver) (packets : List PacketLocation)
    (ids : List String) (hv : _validate_hashes d packets = some ids) :
    ids ≠ [] ∧ ∀ i, i ∈ ids ↔ ∃ p ∈ packets, p.packet = i ∧
      ∃ pl, d.list.lookup i = some pl ∧ pl.hash ≠ p.hash := by
  unfold _validate_hashes at hv
  by_cases hemp : (((packets.filter fun p =>
      match d.list.lookup p.packet with
      | some pl => pl.hash != p.hash
      | none => false).map (fun p => p.packet)).dedup).isEmpty
  · rw [if_pos hemp] at hv
    exact absurd hv (by simp)
  · rw [if_neg hemp] at hv
    have hids : ids = ((packets.filter fun p =>
        match d.list.lookup p.packet with
        | some pl => pl.hash != p.hash
        | none => false).map (fun p => p.packet)).dedup :=
      (Option.some_inj.mp hv).symm
    constructor
    · intro hcon
      rw [hcon] at hids
      rw [← hids] at hemp
      exact hemp rfl
    · intro i
      rw [hids, List.mem_dedup, List.mem_map]
      constructor
      · rintro ⟨p, hpf, hpp⟩
        have hp2 := List.mem_filter.mp hpf
        obtain ⟨pl, hpl, hplne⟩ := (validate_pred_iff d p).mp hp2.2
        rw [hpp] at hpl
        exact ⟨p, hp2.1, hpp, pl, hpl, hplne⟩
      · rintro ⟨p, hpmem, hpp, pl, hpl, hplne⟩
        rw [← hpp] at hpl
        exact ⟨p, List.mem_filter.mpr ⟨hpmem, (validate_pred_iff d p).mpr ⟨pl, hpl, hplne⟩⟩, hpp⟩

/-- The flattened membership rows depend only on the locationStore
component. -/
lemma allLocationRows_congr (st1 st2 : RootState)
    (hst : st1.locationStore = st2.locationStore) :
    st1.allLocationRows = st2.allLocationRows := by
  unfold RootState.allLocationRows
  rw [hst]

/-- C2: during pull metadata, ids already present in the local metadata index
are never fetched; everything persisted was reported by the location and its
payload hashes to the reported value; when every unknown id verifies, the
fetch loop succeeds and persists exactly the unknown ids in reported order;
and when some unknown id fails verification the loop fails with a
MetadataHashMismatch error whose message carries the claimed wording for that
id and location. -/
theorem C2_pull_metadata_hash_validation (h : String → String) (d : PullDriver)
    (st : RootState) (loc : String) :
    (∀ id ∈ (_pull_all_metadata h d st loc).fetched,
      (alistKeys st.metadataStore).contains id = false)
    ∧ (∃ news, (_pull_all_metadata h d st loc).state.metadataStore =
          st.metadataStore ++ news
        ∧ ∀ pr ∈ news, ∃ pl, (pr.1, pl) ∈ d.list ∧ h pr.2 = pl.hash)
    ∧ ((∀ pr ∈ d.list, (alistKeys st.metadataStore).contains pr.1 = false →
          ∃ m, d.metadataOf pr.1 = some m ∧ h m = pr.2.hash) →
        (_pull_all_metadata h d st loc).err = none
        ∧ alistKeys (_pull_all_metadata h d st loc).state.metadataStore =
            alistKeys st.metadataStore ++
              (d.list.map Prod.fst).filter
                (fun i => !((alistKeys st.metadataStore).contains i)))
    ∧ ((∀ pr ∈ d.list, (alistKeys st.metadataStore).contains pr.1 = false →
          (d.metadataOf pr.1).isSome) →
        (∃ pr ∈ d.list, (alistKeys st.metadataStore).contains pr.1 = false ∧
          ∀ m, d.metadataOf pr.1 = some m → h m ≠ pr.2.hash) →
        ∃ id, (_pull_all_metadata h d st loc).err =
            some (.metadataHashMismatch id loc)
          ∧ (PullErr.metadataHashMismatch id loc).message =
              "hash of metadata for \x27" ++ id ++ "\x27 from \x27" ++ loc ++
                "\x27 does not match") := by
  refine ⟨?_, ?_, ?_, ?_⟩
  · intro id hid
    obtain ⟨-, -, ⟨fnew, hf, hfprop⟩, -⟩ :=
      pull_go_spec h d loc (alistKeys st.metadataStore) d.list st []
    rw [_pull_all_metadata] at hid
    rw [hf] at hid
    rw [List.nil_append] at hid
    exact hfprop id hid
  · obtain ⟨-, -, -, ⟨news, hn, hnprop⟩⟩ :=
      pull_go_spec h d loc (alistKeys st.metadataStore) d.list st []
    exact ⟨news, hn, hnprop⟩
  · intro hall
    exact pull_go_success h d loc (alistKeys st.metadataStore) d.list st [] hall
  · intro hfetchable hex
    obtain ⟨id, herr, -⟩ :=
      pull_go_mismatch h d loc (alistKeys st.metadataStore) d.list st [] hfetchable hex
    exact ⟨id, herr, rfl⟩

/-- Witness for C2: a success run (the already-known id is skipped, the new
id is fetched, verified and persisted) and a mismatch run (the fetched
payload does not hash to the reported value, failing with the claimed
message). -/
theorem C2_pull_metadata_hash_validation_witness :
    ((_pull_all_metadata (fun _ => "hC")
        ⟨[("A", ⟨"A", 0, "x"⟩), ("C", ⟨"C", 0, "hC"⟩)],
          fun i => if i = "C" then some "mC" else none⟩
        ⟨[], [("A", "mA")], []⟩ "srv").err = none
      ∧ alistKeys (_pull_all_metadata (fun _ => "hC")
          ⟨[("A", ⟨"A", 0, "x"⟩), ("C", ⟨"C", 0, "hC"⟩)],
            fun i => if i = "C" then some "mC" else none⟩
          ⟨[], [("A", "mA")], []⟩ "srv").state.metadataStore =
        alistKeys (⟨[], [("A", "mA")], []⟩ : RootState).metadataStore ++
          (([("A", (⟨"A", 0, "x"⟩ : PacketLocation)),
             ("C", ⟨"C", 0, "hC"⟩)].map Prod.fst).filter
            (fun i => !((alistKeys (⟨[], [("A", "mA")], []⟩ : RootState).metadataStore).contains i))))
    ∧ (∃ id, (_pull_all_metadata (fun _ => "nope")
          ⟨[("D", ⟨"D", 0, "hD"⟩)], fun _ => some "bad"⟩
          ⟨[], [], []⟩ "srv").err = some (.metadataHashMismatch id "srv")
        ∧ (PullErr.metadataHashMismatch id "srv").message =
            "hash of metadata for \x27" ++ id ++ "\x27 from \x27" ++ "srv" ++
              "\x27 does not match") := by
  constructor
  · exact (C2_pull_metadata_hash_validation (fun _ => "hC")
      ⟨[("A", ⟨"A", 0, "x"⟩), ("C", ⟨"C", 0, "hC"⟩)],
        fun i => if i = "C" then some "mC" else none⟩
      ⟨[], [("A", "mA")], []⟩ "srv").2.2.1
      (by
        intro pr hpr hnk
        rcases List.mem_cons.mp hpr with heq | hmem
        · subst heq
          simp [alistKeys] at hnk
        · rw [List.mem_singleton.mp hmem]
          exact ⟨"mC", rfl, rfl⟩)
  · exact (C2_pull_metadata_hash_validation (fun _ => "nope")
      ⟨[("D", ⟨"D", 0, "hD"⟩)], fun _ => some "bad"⟩
      ⟨[], [], []⟩ "srv").2.2.2
      (by
        intro pr hpr hnk
        rw [List.mem_singleton.mp hpr]
        rfl)
      (by
        refine ⟨("D", ⟨"D", 0, "hD"⟩), by simp, rfl, ?_⟩
        intro m hm
        decide)

lemma contains_singleton_false (a b : String) (h : b ≠ a) :
    ([b] : List String).contains a = false := by
  rw [show ([b] : List String).contains a = List.elem a [b] from rfl, List.elem_eq_mem]
  simp only [List.mem_singleton, decide_eq_false_iff_not]
  exact fun hc => h (by rw [hc])

/-- A known, non-reserved single location name resolves to itself under the
pull-metadata filters. -/
lemma resolve_one_nonreserved (st : RootState) (name : String)
    (hknown : (outpack_location_list st).contains name = true)
    (hnl : name ≠ LOCATION_LOCAL) (hno : name ≠ LOCATION_ORPHAN) :
    location_resolve_valid (.one name) st false false true = .ok [name] := by
  unfold location_resolve_valid _location_arg_resolve
  simp only []
  rw [if_pos hknown]
  simp only []
  unfold _location_filter
  have h1 := contains_singleton_false LOCATION_LOCAL name hnl
  have h2 := contains_singleton_false LOCATION_ORPHAN name hno
  simp [h1, h2, Ne.symm hnl, Ne.symm hno]

/-- The conflict outcome of one location pull: with all fetches verifying and
a conflicting membership row present, the location errors with exactly the
conflicting ids and writes no membership rows. -/
lemma pull_metadata_location_conflict (h : String → String) (d : PullDriver)
    (st : RootState) (name : String)
    (hfetch : ∀ pr ∈ d.list, (alistKeys st.metadataStore).contains pr.1 = false →
      ∃ m, d.metadataOf pr.1 = some m ∧ h m = pr.2.hash)
    (hconf : ∃ p ∈ st.allLocationRows, ∃ pl,
      d.list.lookup p.packet = some pl ∧ pl.hash ≠ p.hash) :
    ∃ stF ids, _pull_metadata_location h d st name =
        (stF, some (.conflictingMetadata name ids))
      ∧ stF.locationStore = st.locationStore
      ∧ stF.locations = st.locations
      ∧ ids ≠ []
      ∧ (∀ i, i ∈ ids ↔ ∃ p ∈ st.allLocationRows, p.packet = i ∧
          ∃ pl, d.list.lookup i = some pl ∧ pl.hash ≠ p.hash) := by
  obtain ⟨hlocs, hlocst, -, -⟩ :=
    pull_go_spec h d name (alistKeys st.metadataStore) d.list st []
  obtain ⟨he, -⟩ :=
    pull_go_success h d name (alistKeys st.metadataStore) d.list st [] hfetch
  have he2 : (_pull_all_metadata h d st name).err = none := he
  have hlocs2 : (_pull_all_metadata h d st name).state.locations = st.locations := hlocs
  have hlocst2 : (_pull_all_metadata h d st name).state.locationStore = st.locationStore :=
    hlocst
  have hrows : (_pull_all_metadata h d st name).state.allLocationRows =
      st.allLocationRows := by
    unfold RootState.allLocationRows
    rw [hlocst2]
  obtain ⟨ids, hv⟩ := (validate_hashes_some_iff d st.allLocationRows).mpr hconf
  obtain ⟨hne, hmem⟩ := validate_hashes_mem d st.allLocationRows ids hv
  simp only [_pull_metadata_location]
  rw [he2]
  simp only []
  rw [hrows, hv]
  exact ⟨(_pull_all_metadata h d st name).state, ids, rfl, hlocst2, hlocs2, hne, hmem⟩

/-- C1 amended: pulling metadata from a location that reports a conflicting
hash for some packet already known locally fails with ConflictingMetadata
enumerating exactly the conflicting packet ids, and no membership rows are
written by the failed pull (for this location or any other) and the location
config is untouched; however the metadata fetched from the offending
location for packets not previously known locally is persisted before the
cross-check runs, and survives the failed pull (C1 as stated is refuted by
the counterexample on that point). The fetch hypothesis isolates the
conflict case from the earlier MetadataHashMismatch failure mode. -/
theorem C1_pull_metadata_conflict (h : String → String)
    (drivers : String → PullDriver) (st : RootState) (name : String)
    (hknown : (outpack_location_list st).contains name = true)
    (hnl : name ≠ LOCATION_LOCAL) (hno : name ≠ LOCATION_ORPHAN)
    (hfetch : ∀ pr ∈ (drivers name).list,
      (alistKeys st.metadataStore).contains pr.1 = false →
      ∃ m, (drivers name).metadataOf pr.1 = some m ∧ h m = pr.2.hash)
    (hconf : ∃ p ∈ st.allLocationRows, ∃ pl,
      (drivers name).list.lookup p.packet = some pl ∧ pl.hash ≠ p.hash) :
    ∃ stF ids, outpack_location_pull_metadata h drivers (.one name) st =
        (stF, some (.conflictingMetadata name ids))
      ∧ stF.locationStore = st.locationStore
      ∧ stF.locations = st.locations
      ∧ ids ≠ []
      ∧ (∀ i, i ∈ ids ↔ ∃ p ∈ st.allLocationRows, p.packet = i ∧
          ∃ pl, (drivers name).list.lookup i = some pl ∧ pl.hash ≠ p.hash) := by
  obtain ⟨stF, ids, heq, h1, h2, h3, h4⟩ :=
    pull_metadata_location_conflict h (drivers name) st name hfetch hconf
  refine ⟨stF, ids, ?_, h1, h2, h3, h4⟩
  unfold outpack_location_pull_metadata
  rw [resolve_one_nonreserved st name hknown hnl hno]
  simp only []
  unfold _pull_metadata_locations
  rw [heq]

/-- C1 counterexample: the offending location loc2 reports packet A with a
hash conflicting with the one recorded under loc1, and a new packet B. The
pull fails with ConflictingMetadata for A and writes no membership rows, but
the metadata of B fetched from loc2 is persisted: the final metadata store
[("A","mA"), ("B","mB")] differs from the initial [("A","mA")], refuting the
claim that the local repository state is left untouched. -/
theorem C1_pull_metadata_conflict_counterexample :
    outpack_location_pull_metadata (fun _ => "hB")
      (fun _ => ⟨[("A", ⟨"A", 0, "h2"⟩), ("B", ⟨"B", 0, "hB"⟩)],
        fun i => if i = "B" then some "mB" else none⟩)
      (.one "loc2")
      ⟨[("loc1", ⟨"loc1", "path", none⟩), ("loc2", ⟨"loc2", "path", none⟩)],
        [("A", "mA")],
        [("loc1", [("A", ⟨"A", 0, "h1"⟩)])]⟩ =
      (⟨[("loc1", ⟨"loc1", "path", none⟩), ("loc2", ⟨"loc2", "path", none⟩)],
        [("A", "mA"), ("B", "mB")],
        [("loc1", [("A", ⟨"A", 0, "h1"⟩)])]⟩,
       some (.conflictingMetadata "loc2" ["A"]))
    ∧ ([("A", "mA"), ("B", "mB")] : List (String × String)) ≠ [("A", "mA")] := by
  exact ⟨rfl, by decide⟩

/-- Witness for C1 amended at the counterexample repository. -/
theorem C1_pull_metadata_conflict_witness :
    ∃ stF ids, outpack_location_pull_metadata (fun _ => "hB")
        (fun _ => ⟨[("A", ⟨"A", 0, "h2"⟩), ("B", ⟨"B", 0, "hB"⟩)],
          fun i => if i = "B" then some "mB" else none⟩)
        (.one "loc2")
        ⟨[("loc1", ⟨"loc1", "path", none⟩), ("loc2", ⟨"loc2", "path", none⟩)],
          [("A", "mA")],
          [("loc1", [("A", ⟨"A", 0, "h1"⟩)])]⟩ =
        (stF, some (.conflictingMetadata "loc2" ids))
      ∧ stF.locationStore =
          [("loc1", [("A", (⟨"A", 0, "h1"⟩ : PacketLocation))])]
      ∧ ids ≠ [] := by
  obtain ⟨stF, ids, heq, hst, -, hne, -⟩ :=
    C1_pull_metadata_conflict (fun _ => "hB")
      (fun _ => ⟨[("A", ⟨"A", 0, "h2"⟩), ("B", ⟨"B", 0, "hB"⟩)],
        fun i => if i = "B" then some "mB" else none⟩)
      ⟨[("loc1", ⟨"loc1", "path", none⟩), ("loc2", ⟨"loc2", "path", none⟩)],
        [("A", "mA")],
        [("loc1", [("A", ⟨"A", 0, "h1"⟩)])]⟩
      "loc2" (by decide) (by decide) (by decide)
      (by
        intro pr hpr hnk
        rcases List.mem_cons.mp hpr with heq | hmem
        · subst heq
          simp [alistKeys] at hnk
        · rw [List.mem_singleton.mp hmem]
          exact ⟨"mB", rfl, rfl⟩)
      (by
        refine ⟨⟨"A", 0, "h1"⟩, by decide, ⟨"A", 0, "h2"⟩, rfl, by decide⟩)
  exact ⟨stF, ids, heq, hst, hne⟩

/-! ## Push engine lemmas (for C5) -/

lemma push_files_ok (find_file : String → Option String) :
    ∀ l : List String, (∀ hsh ∈ l, (find_file hsh).isSome) →
      _push_files find_file l =
        .ok (l.map fun hsh => PushEvent.pushFile ((find_file hsh).getD "") hsh) := by
  intro l
  induction l with
  | nil => intro _; rfl
  | cons hsh rest ih =>
    intro hall
    have hs := hall hsh (by simp)
    cases hf : find_file hsh with
    | none => rw [hf] at hs; simp at hs
    | some p =>
      simp only [_push_files]
      rw [hf]
      simp only []
      rw [ih (fun q hq => hall q (by simp [hq]))]
      simp [Except.map, hf]

lemma push_metadata_ok (rows : List (String × PacketLocation)) :
    ∀ l : List String, (∀ pid ∈ l, (rows.lookup pid).isSome) →
      _push_metadata_events rows l =
        .ok (l.map fun pid => PushEvent.pushMetadata pid
          (((rows.lookup pid).map PacketLocation.hash).getD "")) := by
  intro l
  induction l with
  | nil => intro _; rfl
  | cons pid rest ih =>
    intro hall
    have hs := hall pid (by simp)
    cases hl : rows.lookup pid with
    | none => rw [hl] at hs; simp at hs
    | some pl =>
      simp only [_push_metadata_events]
      rw [hl]
      simp only []
      rw [ih (fun q hq => hall q (by simp [hq]))]
      simp [Except.map, hl]

lemma find_all_deps_go_extends (md : List (String × MetadataCore)) :
    ∀ (fuel : Nat) (ret frontier : List String),
      ∃ ext, _find_all_dependencies_go md fuel ret frontier = ret ++ ext := by
  intro fuel
  induction fuel with
  | zero =>
    intro ret frontier
    exact ⟨[], by simp [_find_all_dependencies_go]⟩
  | succ n ih =>
    intro ret frontier
    simp only [_find_all_dependencies_go]
    split
    · exact ⟨[], by simp⟩
    · obtain ⟨ext, hext⟩ := ih _ _
      exact ⟨_, by rw [hext, List.append_assoc]⟩

/-- C5: pushing resolves the target, builds the plan (dependency closure of
the requested ids, the driver-unknown packets sorted lexicographically, the
driver-unknown subset of the distinct hashes of the missing packets files),
then uploads every missing file before any metadata and pushes metadata in
the plan order. -/
theorem C5_push_plan_and_order (find_file : String → Option String)
    (st : RootState) (d : PushDriver) (location : String) (ids : List String)
    (md : List (String × MetadataCore))
    (hres : location_resolve_valid (.many [location]) st false false false =
      .ok [location])
    (hfind : ∀ hsh ∈ (location_build_push_plan d ids md).files,
      (find_file hsh).isSome)
    (hrows : ∀ pid ∈ (location_build_push_plan d ids md).packets,
      (((st.locationStore.lookup LOCATION_LOCAL).getD []).lookup pid).isSome) :
    outpack_location_push find_file st d location ids md =
      .ok (location_build_push_plan d ids md,
        ((location_build_push_plan d ids md).files.map
          (fun hsh => PushEvent.pushFile ((find_file hsh).getD "") hsh)) ++
        ((location_build_push_plan d ids md).packets.map
          (fun pid => PushEvent.pushMetadata pid
            (((((st.locationStore.lookup LOCATION_LOCAL).getD []).lookup pid).map
              PacketLocation.hash).getD ""))))
    ∧ List.Sorted (· ≤ ·) (location_build_push_plan d ids md).packets
    ∧ (location_build_push_plan d ids md).packets.Perm
        (d.listUnknownPackets (find_all_dependencies ids md))
    ∧ (location_build_push_plan d ids md).files =
        d.listUnknownFiles
          (((d.listUnknownPackets (find_all_dependencies ids md)).flatMap fun i =>
            match md.lookup i with
            | some m => m.files.map (fun f => f.hash)
            | none => []).dedup)
    ∧ (∀ i ∈ ids, i ∈ find_all_dependencies ids md) := by
  refine ⟨?_, ?_, ?_, rfl, ?_⟩
  · unfold outpack_location_push
    rw [hres]
    simp only []
    rw [push_files_ok find_file (location_build_push_plan d ids md).files hfind]
    simp only []
    rw [push_metadata_ok ((st.locationStore.lookup LOCATION_LOCAL).getD [])
      (location_build_push_plan d ids md).packets hrows]
  · exact List.sorted_insertionSort _ _
  · exact List.perm_insertionSort _ _
  · intro i hi
    obtain ⟨ext, hext⟩ :=
      find_all_deps_go_extends md (md.length + 1) ids.dedup ids.dedup
    refine (List.perm_insertionSort _ _).mem_iff.mpr ?_
    rw [hext]
    exact List.mem_append_left ext (List.mem_dedup.mpr hi)

/-- Witness for C5 at a two-packet chain: b depends on a, the remote knows
nothing, and everything is locally available. -/
theorem C5_push_plan_and_order_witness :
    outpack_location_push (fun hsh => some ("/x/" ++ hsh))
      ⟨[("local", ⟨"local", "local", none⟩), ("dest", ⟨"dest", "path", none⟩)],
        [], [("local", [("a", ⟨"a", 0, "ha"⟩), ("b", ⟨"b", 0, "hb"⟩)])]⟩
      ⟨fun l => l, fun l => l⟩ "dest" ["b"]
      [("a", ⟨"a", "nm", [⟨"f1", "hf1", 1⟩], []⟩),
       ("b", ⟨"b", "nm", [⟨"f2", "hf2", 1⟩], [⟨"a", "latest", []⟩]⟩)] =
      .ok (location_build_push_plan ⟨fun l => l, fun l => l⟩ ["b"]
          [("a", ⟨"a", "nm", [⟨"f1", "hf1", 1⟩], []⟩),
           ("b", ⟨"b", "nm", [⟨"f2", "hf2", 1⟩], [⟨"a", "latest", []⟩]⟩)],
        ((location_build_push_plan ⟨fun l => l, fun l => l⟩ ["b"]
          [("a", ⟨"a", "nm", [⟨"f1", "hf1", 1⟩], []⟩),
           ("b", ⟨"b", "nm", [⟨"f2", "hf2", 1⟩], [⟨"a", "latest", []⟩]⟩)]).files.map
          (fun hsh => PushEvent.pushFile ((some ("/x/" ++ hsh)).getD "") hsh)) ++
        ((location_build_push_plan ⟨fun l => l, fun l => l⟩ ["b"]
          [("a", ⟨"a", "nm", [⟨"f1", "hf1", 1⟩], []⟩),
           ("b", ⟨"b", "nm", [⟨"f2", "hf2", 1⟩], [⟨"a", "latest", []⟩]⟩)]).packets.map
          (fun pid => PushEvent.pushMetadata pid
            ((([("a", (⟨"a", 0, "ha"⟩ : PacketLocation)),
                ("b", ⟨"b", 0, "hb"⟩)].lookup pid).map
              PacketLocation.hash).getD "")))) := by
  have h := C5_push_plan_and_order (fun hsh => some ("/x/" ++ hsh))
    ⟨[("local", ⟨"local", "local", none⟩), ("dest", ⟨"dest", "path", none⟩)],
      [], [("local", [("a", ⟨"a", 0, "ha"⟩), ("b", ⟨"b", 0, "hb"⟩)])]⟩
    ⟨fun l => l, fun l => l⟩ "dest" ["b"]
    [("a", ⟨"a", "nm", [⟨"f1", "hf1", 1⟩], []⟩),
     ("b", ⟨"b", "nm", [⟨"f2", "hf2", 1⟩], [⟨"a", "latest", []⟩]⟩)]
    rfl
    (fun hsh _ => rfl)
    (by
      intro pid hpid
      have h1 : pid ∈ List.insertionSort (· ≤ ·)
          (_find_all_dependencies_go
            [("a", ⟨"a", "nm", [⟨"f1", "hf1", 1⟩], []⟩),
             ("b", ⟨"b", "nm", [⟨"f2", "hf2", 1⟩], [⟨"a", "latest", []⟩]⟩)]
            3 ["b"] ["b"]) :=
        (List.perm_insertionSort _ _).mem_iff.mp hpid
      have h2 : pid ∈ _find_all_dependencies_go
          [("a", ⟨"a", "nm", [⟨"f1", "hf1", 1⟩], []⟩),
           ("b", ⟨"b", "nm", [⟨"f2", "hf2", 1⟩], [⟨"a", "latest", []⟩]⟩)]
          3 ["b"] ["b"] :=
        (List.perm_insertionSort _ _).mem_iff.mp h1
      have h3 : pid ∈ (["b", "a"] : List String) := by
        rw [show _find_all_dependencies_go
            [("a", ⟨"a", "nm", [⟨"f1", "hf1", 1⟩], []⟩),
             ("b", ⟨"b", "nm", [⟨"f2", "hf2", 1⟩], [⟨"a", "latest", []⟩]⟩)]
            3 ["b"] ["b"] = (["b", "a"] : List String) from rfl] at h2
        exact h2
      rcases List.mem_cons.mp h3 with hb | h4
      · rw [hb]; rfl
      · rw [List.mem_singleton.mp h4]; rfl)
  exact h.1

end Outpack
